import Mathlib

/-!
Shallow embedding of the Dalee/web-recorder core
(src/recorder.ts and src/workers/recorder.worker.ts).

JavaScript numbers are modelled as exact rationals.  A float that may be
NaN is modelled as Option ℚ, with none standing for NaN: reading a typed
array out of bounds yields undefined, and storing undefined (or 0/0) into
a Float32Array stores NaN.
-/

/-- A JavaScript float sample: a finite rational, or none for NaN. -/
abbrev JVal := Option ℚ

/-- Typed-array read: in bounds gives the stored value, out of bounds gives
undefined, which a Float32Array write turns into NaN (none). -/
def jget (l : List JVal) (i : Nat) : JVal := (l[i]?).getD none

/-- JavaScript addition on possibly-NaN floats: NaN propagates. -/
def jadd : JVal → JVal → JVal
  | some a, some b => some (a + b)
  | _, _ => none

/-- Sum of a list of possibly-NaN floats starting from accum = 0, as in the
downsample loop of recorder.worker.ts. -/
def jsum (l : List JVal) : JVal := l.foldl jadd (some 0)

/-- JavaScript division of the accumulator by the count.  In the worker the
count is 0 only when the accumulator is still 0, so count 0 gives
0/0 = NaN. -/
def jdivNat : JVal → Nat → JVal
  | none, _ => none
  | some a, n => if n = 0 then none else some (a / n)

/-- JavaScript ToIntegerOrInfinity on a finite value: truncate toward 0. -/
def jsTrunc (x : ℚ) : ℤ := if 0 ≤ x then x.floor else x.ceil

/-- JavaScript Math.round on a nonnegative finite value: floor (x + 1/2). -/
def jsRound (x : ℚ) : ℤ := (x + 1 / 2).floor

/-- Little-endian bytes written by DataView.setUint32 (littleEndian = true)
for a nonnegative integer value; only the low 32 bits reach the bytes. -/
def u32le (v : Nat) : List Nat :=
  [v % 256, v / 256 % 256, v / 65536 % 256, v / 16777216 % 256]

/-- Little-endian bytes written by DataView.setUint16 (littleEndian = true);
only the low 16 bits reach the bytes. -/
def u16le (v : Nat) : List Nat := [v % 256, v / 256 % 256]

/-- ToUint32 of a finite JavaScript number: truncate, then wrap mod 2^32. -/
def qToUint32 (x : ℚ) : Nat := (jsTrunc x % (4294967296 : ℤ)).toNat

/-- Little-endian bytes written by DataView.setInt16: the low 16 bits of
the two-complement representation. -/
def i16le (v : ℤ) : List Nat := u16le (v % 65536).toNat

/-- writeString in recorder.worker.ts (lines 119-123): one byte per
character, the character code. -/
def wavString (s : String) : List Nat := s.data.map Char.toNat

/-- The 16-bit value stored for one sample by floatTo16BitPCM
(recorder.worker.ts lines 112-117): clamp with Math.max(-1, Math.min(1, x)),
scale a negative result by 0x8000 and a non-negative one by 0x7fff, and
truncate as setInt16 does.  Math.min(1, NaN) = NaN, NaN < 0 is false,
NaN * 0x7fff = NaN, and setInt16 maps NaN to 0. -/
def pcm16 : JVal → ℤ
  | none => 0
  | some x =>
    let s := max (-1 : ℚ) (min 1 x)
    jsTrunc (if s < 0 then s * 32768 else s * 32767)

/-- floatTo16BitPCM (recorder.worker.ts lines 112-117): the PCM data bytes,
two bytes per sample, little-endian. -/
def floatTo16BitPCM (samples : List JVal) : List Nat :=
  (samples.map fun x => i16le (pcm16 x)).flatten

/-- encodeWAV (recorder.worker.ts lines 152-186): the 44 header bytes
followed by the 16-bit PCM data.  rate is the JavaScript number written
with setUint32 (ToUint32 truncates and wraps); numChannels is the
module-level channel count. -/
def encodeWAV (samples : List JVal) (rate : ℚ) (numChannels : Nat) : List Nat :=
  wavString "RIFF" ++
  (u32le (36 + samples.length * 2) ++
  (wavString "WAVE" ++
  (wavString "fmt " ++
  (u32le 16 ++
  (u16le 1 ++
  (u16le numChannels ++
  (u32le (qToUint32 rate) ++
  (u32le (qToUint32 (rate * (numChannels : ℚ) * 2)) ++
  (u16le (numChannels * 2) ++
  (u16le 16 ++
  (wavString "data" ++
  (u32le (samples.length * 2) ++
  floatTo16BitPCM samples))))))))))))

/-- Read a little-endian uint32 from the head of a byte list. -/
def parseU32 : List Nat → Nat
  | b0 :: b1 :: b2 :: b3 :: _ => b0 + 256 * b1 + 65536 * b2 + 16777216 * b3
  | _ => 0

/-- Read a little-endian uint16 from the head of a byte list. -/
def parseU16 : List Nat → Nat
  | b0 :: b1 :: _ => b0 + 256 * b1
  | _ => 0

/-- interleave (recorder.worker.ts lines 97-110).  The while loop writes
result[index] exactly once for every index < inputL.length + inputR.length,
alternating between the channels and advancing inputIndex after each pair,
so the write at even index 2k reads inputL[k] and the write at odd index
2k+1 reads inputR[k]; a final write at index = length (odd total) is
discarded by the typed array, and reads past the end of a channel yield
undefined, stored as NaN.  The function never throws. -/
def interleave (inputL inputR : List JVal) : List JVal :=
  (List.range (inputL.length + inputR.length)).map fun i =>
    if i % 2 = 0 then jget inputL (i / 2) else jget inputR (i / 2)

/-- The while loop of downsampleBuffer (recorder.worker.ts lines 137-148):
offsetResult is the output index, offsetBuffer the running input boundary;
each iteration averages the input samples with index in
[offsetBuffer, min nextOffsetBuffer buffer.length) and advances. -/
def downsampleLoop (buffer : List JVal) (ratio : ℚ) (newLength : Nat)
    (offsetResult offsetBuffer : Nat) : List JVal :=
  if offsetResult < newLength then
    let nextOffsetBuffer := (jsRound (((offsetResult : ℚ) + 1) * ratio)).toNat
    let cnt := min nextOffsetBuffer buffer.length - offsetBuffer
    let accum := jsum ((List.range' offsetBuffer cnt).map (jget buffer))
    jdivNat accum cnt ::
      downsampleLoop buffer ratio newLength (offsetResult + 1) nextOffsetBuffer
  else []
termination_by newLength - offsetResult
decreasing_by omega

/-- downsampleBuffer (recorder.worker.ts lines 125-150).  rate is the
export target rate, srate the module-level sampleRate; the source throws
an Error for upsampling, modelled with Except.  (With a negative target
rate the JavaScript code would throw a RangeError from the Float32Array
constructor; toNat clamps the length to 0 instead, a corner no claim
exercises.) -/
def downsampleBuffer (buffer : List JVal) (rate srate : ℚ) :
    Except String (List JVal) :=
  if rate = srate then .ok buffer
  else if srate < rate then
    .error "downsampling rate show be smaller than original sample rate"
  else
    let sampleRateRatio := srate / rate
    let newLength := (jsRound ((buffer.length : ℚ) / sampleRateRatio)).toNat
    .ok (downsampleLoop buffer sampleRateRatio newLength 0 0)

/-- mergeBuffers (recorder.worker.ts lines 87-95): concatenates the chunks
of one channel into a Float32Array of recLength samples (zero-filled when
the chunks fall short; the worker keeps recLength equal to the total chunk
length, and a longer chunk list would make the JavaScript set call throw a
RangeError, a corner no claim exercises). -/
def mergeBuffers (recBuffers : List (List JVal)) (recLength : Nat) : List JVal :=
  let flat := recBuffers.flatten
  (flat ++ List.replicate (recLength - flat.length) (some 0)).take recLength

/-- The module-level mutable state of the worker (recorder.worker.ts lines
8-11). -/
structure WorkerState where
  recLength : Nat
  recBuffers : List (List (List JVal))
  sampleRate : ℚ
  numChannels : Nat
deriving DecidableEq

/-- exportWAV (recorder.worker.ts lines 48-65): merge each channel,
interleave when stereo, downsample, encode.  The module state is threaded
explicitly; the source assigns no module-level variable here, so a
successful call returns the state unchanged and a thrown error leaves it
untouched. -/
def exportWAVFn (st : WorkerState) (rate : Option ℚ) :
    Except String (WorkerState × List Nat) :=
  let r := rate.getD st.sampleRate
  let buffers := (List.range st.numChannels).map fun ch =>
    mergeBuffers (st.recBuffers.getD ch []) st.recLength
  let interleaved :=
    if st.numChannels = 2 then interleave (buffers.getD 0 []) (buffers.getD 1 [])
    else buffers.getD 0 []
  match downsampleBuffer interleaved r st.sampleRate with
  | .error e => .error e
  | .ok ds => .ok (st, encodeWAV ds r st.numChannels)

/-- IOptionsMaybe (recorder.ts lines 4-9): all fields optional. -/
structure IOptionsMaybe where
  mono : Option Bool := none
  quietThresholdTime : Option ℚ := none
  volumeThreshold : Option ℚ := none
  sampleRate : Option ℚ := none

/-- IOptions (recorder.ts lines 11-16). -/
structure IOptions where
  mono : Bool
  quietThresholdTime : ℚ
  volumeThreshold : ℚ
  sampleRate : Option ℚ
deriving DecidableEq

/-- JavaScript a || b for an optional boolean a: undefined and false are
falsy, so only the value true survives. -/
def jsOrBool : Option Bool → Bool → Bool
  | some true, _ => true
  | _, d => d

/-- JavaScript a || b for an optional number a: undefined and 0 are falsy
(NaN does not arise here). -/
def jsOrRat : Option ℚ → ℚ → ℚ
  | some x, d => if x = 0 then d else x
  | none, d => d

/-- The options object built in the Recorder constructor (recorder.ts
lines 51-56). -/
def effectiveOptions (o : IOptionsMaybe) : IOptions :=
  { mono := jsOrBool o.mono true
    quietThresholdTime := jsOrRat o.quietThresholdTime 5
    volumeThreshold := jsOrRat o.volumeThreshold (-60)
    sampleRate := o.sampleRate }

/-- IConfig (recorder.worker.ts lines 1-4). -/
structure IConfig where
  sampleRate : ℚ
  numChannels : Nat
deriving DecidableEq

/-- The Recorder fields that the lifecycle and silence logic touch
(recorder.ts lines 24-61); the audio-graph plumbing is an external
collaborator. -/
structure RecorderState where
  recording : Bool
  ready : Bool
  quietTime : ℚ
  maxVolume : ℚ
  options : IOptions
deriving DecidableEq

/-- Events dispatched by the Recorder; exportReq stands for the exportWAV
message that stop() posts to the worker. -/
inductive REvent where
  | readyEv
  | startEv
  | resetEv
  | exportReq
  | stopEv
  | dataEv
  | endEv
deriving DecidableEq

/-- The Recorder constructor (recorder.ts lines 41-61). -/
def Recorder.new (o : IOptionsMaybe) : RecorderState :=
  { recording := false, ready := false, quietTime := 0, maxVolume := 99
    options := effectiveOptions o }

/-- setup (recorder.ts lines 93-135): builds the worker IConfig from the
audio-context rate and the audio-track count of the stream, posts init, marks
the session ready and resets quietTime to the current time of the context. -/
def Recorder.setup (s : RecorderState) (now ctxRate : ℚ) (numTracks : Nat) :
    RecorderState × IConfig :=
  ({ s with ready := true, quietTime := now },
   { sampleRate := ctxRate
     numChannels := if s.options.mono then 1 else numTracks })

/-- start (recorder.ts lines 63-69): runs setup when not ready, dispatches
the start event and sets recording = true; it has no failure path. -/
def Recorder.start (s : RecorderState) (now ctxRate : ℚ) (numTracks : Nat) :
    RecorderState × List REvent :=
  if s.ready then ({ s with recording := true }, [REvent.startEv])
  else
    ({ (Recorder.setup s now ctxRate numTracks).1 with recording := true },
     [REvent.readyEv, REvent.startEv])

/-- stop (recorder.ts lines 71-74): clears recording and posts the
exportWAV message. -/
def Recorder.stop (s : RecorderState) : RecorderState × List REvent :=
  ({ s with recording := false }, [REvent.exportReq])

/-- isQuiet (recorder.ts lines 168-179).  Returns the new state and
whether stop() was triggered: stop() runs when the elapsed quiet time
strictly exceeds quietThresholdTime and the level is strictly below
volumeThreshold; afterwards a level at or above the threshold resets
quietTime to the current time. -/
def Recorder.isQuiet (s : RecorderState) (now : ℚ) : RecorderState × Bool :=
  let p :=
    if now - s.quietTime > s.options.quietThresholdTime ∧
        s.maxVolume < s.options.volumeThreshold then
      ((Recorder.stop s).1, true)
    else (s, false)
  if s.maxVolume < s.options.volumeThreshold then p
  else ({ p.1 with quietTime := now }, p.2)

/-- onAudioProcess (recorder.ts lines 150-166): the callback returns at
once when not recording; otherwise the analyser peak level (the vol
argument here) replaces maxVolume and isQuiet runs.  Returns the new
state and whether the silence stop fired. -/
def Recorder.onAudioProcess (s : RecorderState) (now vol : ℚ) :
    RecorderState × Bool :=
  if s.recording = false then (s, false)
  else Recorder.isQuiet { s with maxVolume := vol } now

/-- Folds the observations of one recording cycle (time, peak level) through
onAudioProcess, counting how many times the silence stop fired. -/
def Recorder.runObs : RecorderState → List (ℚ × ℚ) → RecorderState × Nat
  | s, [] => (s, 0)
  | s, ob :: rest =>
    let r := Recorder.onAudioProcess s ob.1 ob.2
    let t := Recorder.runObs r.1 rest
    (t.1, (if r.2 then 1 else 0) + t.2)

/-- The input boundary before output index i of the downsample loop:
offsetBuffer equals jsRound (i * ratio) at the start of iteration i. -/
def boundLo (ratio : ℚ) (i : Nat) : Nat := (jsRound ((i : ℚ) * ratio)).toNat

/-- The number of input samples averaged into output index i: the size of
the index range [boundLo i, min (boundLo (i+1)) inputLength). -/
def countAt (buffer : List JVal) (ratio : ℚ) (i : Nat) : Nat :=
  min (boundLo ratio (i + 1)) buffer.length - boundLo ratio i

/-- The newLength computed by downsampleBuffer. -/
def dsNewLen (buffer : List JVal) (ratio : ℚ) : Nat :=
  (jsRound ((buffer.length : ℚ) / ratio)).toNat

/-- The sample conversion as the spec words it (section 4.4): clamp to
[-1, 1], scale a negative value by 32768 and a non-negative one by 32767,
truncate to a signed 16-bit integer, written little-endian. -/
def pcm16Spec (x : ℚ) : ℤ :=
  let s := max (-1 : ℚ) (min 1 x)
  if s < 0 then jsTrunc (s * 32768) else jsTrunc (s * 32767)

/-- A session that was started and then stopped without an intervening
reset: the Stopped lifecycle state of the spec (ready, not recording). -/
def stoppedState : RecorderState :=
  (Recorder.stop (Recorder.start (Recorder.new {}) 0 48000 1).1).1

theorem ratFloor_eq (q : ℚ) : q.floor = ⌊q⌋ := by
  rw [Rat.floor_def, Rat.floor_def']

theorem dropChunk {α : Type} {a t : List α} (n : Nat) (h : a.length = n) :
    (a ++ t).drop n = t := by
  subst h
  exact List.drop_left a t

theorem takeChunk {α : Type} {a t : List α} (n : Nat) (h : a.length = n) :
    (a ++ t).take n = a := by
  subst h
  exact List.take_left a t

theorem parseU32_u32le (v : Nat) (t : List Nat) (h : v < 4294967296) :
    parseU32 (u32le v ++ t) = v := by
  simp [parseU32, u32le]
  omega

theorem parseU16_u16le (v : Nat) (t : List Nat) (h : v < 65536) :
    parseU16 (u16le v ++ t) = v := by
  simp [parseU16, u16le]
  omega

theorem qToUint32_natCast (n : Nat) (h : n < 4294967296) : qToUint32 (n : ℚ) = n := by
  have h0 : (0 : ℚ) ≤ (n : ℚ) := Nat.cast_nonneg n
  rw [qToUint32, jsTrunc, if_pos h0, ratFloor_eq, Int.floor_natCast]
  rw [Int.emod_eq_of_lt (Int.ofNat_nonneg n) (by exact_mod_cast h)]
  simp

theorem floatTo16BitPCM_length (s : List JVal) :
    (floatTo16BitPCM s).length = 2 * s.length := by
  induction s with
  | nil => rfl
  | cons a t ih =>
    simp only [floatTo16BitPCM, List.map_cons, List.flatten_cons,
      List.length_append, List.length_cons] at *
    simp only [i16le, u16le, List.length_cons, List.length_nil] at *
    omega

theorem encodeWAV_drop44 (s : List JVal) (r : ℚ) (c : Nat) :
    (encodeWAV s r c).drop 44 = floatTo16BitPCM s := rfl

theorem floatTo16BitPCM_drop (s : List JVal) (i : Nat) (x : JVal)
    (h : s[i]? = some x) :
    (floatTo16BitPCM s).drop (2 * i) =
      i16le (pcm16 x) ++ floatTo16BitPCM (s.drop (i + 1)) := by
  induction s generalizing i with
  | nil => simp at h
  | cons a t ih =>
    cases i with
    | zero =>
      simp only [List.getElem?_cons_zero, Option.some.injEq] at h
      subst h
      simp [floatTo16BitPCM]
    | succ j =>
      have h' : t[j]? = some x := by simpa using h
      have h2 : 2 * (j + 1) = 2 + 2 * j := by omega
      have hfc : floatTo16BitPCM (a :: t) =
          i16le (pcm16 a) ++ floatTo16BitPCM t := by
        simp [floatTo16BitPCM]
      rw [h2, hfc, ← List.drop_drop,
        dropChunk 2 (by simp [i16le, u16le]), ih j h']
      simp

theorem pcm16_eq_spec (x : ℚ) : pcm16 (some x) = pcm16Spec x := by
  by_cases h : max (-1 : ℚ) (min 1 x) < 0 <;> simp [pcm16, pcm16Spec, h]

/-- C8: downsampling with the target rate equal to the source rate returns
the input unchanged, for every sample sequence and every rate. -/
theorem wr_c8_downsample_identity (x : List JVal) (r : ℚ) :
    downsampleBuffer x r r = Except.ok x := by
  simp [downsampleBuffer]

/-- C7: for every sample sequence x and rates r < r2, downsampling x from
source rate r to target rate r2 fails with the upsampling error; the
exportWAV pipeline propagates that error for any worker state with
sampleRate r, and a completed exportWAV never changes the worker state, so
the buffered state is unchanged by the failing export. -/
theorem wr_c7_upsample_error (x : List JVal) (r r2 : ℚ) (h : r < r2) :
    downsampleBuffer x r2 r =
      Except.error "downsampling rate show be smaller than original sample rate"
    ∧ (∀ st : WorkerState, st.sampleRate = r →
        exportWAVFn st (some r2) =
          Except.error "downsampling rate show be smaller than original sample rate")
    ∧ ∀ (st st' : WorkerState) (rt : Option ℚ) (out : List Nat),
        exportWAVFn st rt = Except.ok (st', out) → st' = st := by
  refine ⟨?_, ?_, ?_⟩
  · simp [downsampleBuffer, ne_of_gt h, h]
  · intro st hst
    simp [exportWAVFn, downsampleBuffer, hst, ne_of_gt h, h]
  · intro st st' rt out hok
    simp only [exportWAVFn] at hok
    split at hok
    · cases hok
    · simp only [Except.ok.injEq, Prod.mk.injEq] at hok
      exact hok.1.symm

/-- Witness for C7 at a concrete input: exporting at 16000 Hz from an
8000 Hz source fails with the upsampling error. -/
theorem wr_c7_witness :
    downsampleBuffer [] (16000 : ℚ) (8000 : ℚ) =
      Except.error "downsampling rate show be smaller than original sample rate" :=
  (wr_c7_upsample_error [] 8000 16000 (by decide)).1

/-- C10: for every options object, including mono = false, the effective
mono setting is true (options.mono || true never yields false), so setup
always configures the worker with numChannels = 1. -/
theorem wr_c10_mono_forced (o : IOptionsMaybe) :
    (effectiveOptions o).mono = true
    ∧ (effectiveOptions { mono := some false }).mono = true
    ∧ ∀ (now ctxRate : ℚ) (numTracks : Nat),
        ((Recorder.setup (Recorder.new o) now ctxRate numTracks).2).numChannels = 1 := by
  have hm : ∀ o' : IOptionsMaybe, (effectiveOptions o').mono = true := by
    intro o'
    rcases ho : o'.mono with _ | b
    · simp [effectiveOptions, jsOrBool, ho]
    · cases b <;> simp [effectiveOptions, jsOrBool, ho]
  refine ⟨hm o, hm _, ?_⟩
  intro now ctxRate numTracks
  simp [Recorder.setup, Recorder.new, hm o]

/-- C5 counterexample: from the Stopped state (reached by start then stop
with no reset), start() does not fail with InvalidState: it transitions
straight back to Recording and dispatches the start event. -/
theorem wr_c5_counterexample :
    stoppedState.recording = false ∧ stoppedState.ready = true ∧
      Recorder.start stoppedState 9 48000 1 =
        ({ stoppedState with recording := true }, [REvent.startEv]) := by
  refine ⟨rfl, rfl, rfl⟩

/-- C5 amended: start() has no failure path.  From every state it leaves
the session recording and ready: when the session is not yet ready it
first runs setup (becoming ready), and in every other state, including
Stopped after a stop() without reset(), it simply resumes recording. -/
theorem wr_c5_start_never_fails (s : RecorderState) (now ctxRate : ℚ)
    (numTracks : Nat) :
    ((Recorder.start s now ctxRate numTracks).1).recording = true
    ∧ ((Recorder.start s now ctxRate numTracks).1).ready = true := by
  by_cases h : s.ready <;> simp [Recorder.start, Recorder.setup, h]

/-- C1: for every sample sequence s, rate r and channel count c (with each
header field representable in its width), the encoded byte sequence starts
with the canonical 44-byte header — RIFF tag, chunk length 36 + 2|s|, WAVE
and fmt tags, subchunk length 16, PCM format 1, channel count c, rate r,
byte rate r*c*2, block align c*2, 16 bits per sample, data tag and data
length 2|s| — followed by exactly the 16-bit PCM data; re-parsing the
little-endian header fields recovers the rate, the channel count and the
data byte length that were written. -/
theorem wr_c1_wav_header (s : List JVal) (r c : Nat)
    (h1 : 36 + 2 * s.length < 4294967296) (h2 : c < 65536)
    (h3 : r < 4294967296) (h4 : r * c * 2 < 4294967296) (h5 : c * 2 < 65536) :
    (encodeWAV s (r : ℚ) c).take 4 = wavString "RIFF"
    ∧ parseU32 ((encodeWAV s (r : ℚ) c).drop 4) = 36 + 2 * s.length
    ∧ ((encodeWAV s (r : ℚ) c).drop 8).take 4 = wavString "WAVE"
    ∧ ((encodeWAV s (r : ℚ) c).drop 12).take 4 = wavString "fmt "
    ∧ parseU32 ((encodeWAV s (r : ℚ) c).drop 16) = 16
    ∧ parseU16 ((encodeWAV s (r : ℚ) c).drop 20) = 1
    ∧ parseU16 ((encodeWAV s (r : ℚ) c).drop 22) = c
    ∧ parseU32 ((encodeWAV s (r : ℚ) c).drop 24) = r
    ∧ parseU32 ((encodeWAV s (r : ℚ) c).drop 28) = r * c * 2
    ∧ parseU16 ((encodeWAV s (r : ℚ) c).drop 32) = c * 2
    ∧ parseU16 ((encodeWAV s (r : ℚ) c).drop 34) = 16
    ∧ ((encodeWAV s (r : ℚ) c).drop 36).take 4 = wavString "data"
    ∧ parseU32 ((encodeWAV s (r : ℚ) c).drop 40) = 2 * s.length
    ∧ (encodeWAV s (r : ℚ) c).length = 44 + 2 * s.length
    ∧ (encodeWAV s (r : ℚ) c).drop 44 = floatTo16BitPCM s := by
  have d4 : (encodeWAV s (r : ℚ) c).drop 4 =
      u32le (36 + s.length * 2) ++ (encodeWAV s (r : ℚ) c).drop 8 := rfl
  have d16 : (encodeWAV s (r : ℚ) c).drop 16 =
      u32le 16 ++ (encodeWAV s (r : ℚ) c).drop 20 := rfl
  have d20 : (encodeWAV s (r : ℚ) c).drop 20 =
      u16le 1 ++ (encodeWAV s (r : ℚ) c).drop 22 := rfl
  have d22 : (encodeWAV s (r : ℚ) c).drop 22 =
      u16le c ++ (encodeWAV s (r : ℚ) c).drop 24 := rfl
  have d24 : (encodeWAV s (r : ℚ) c).drop 24 =
      u32le (qToUint32 (r : ℚ)) ++ (encodeWAV s (r : ℚ) c).drop 28 := rfl
  have d28 : (encodeWAV s (r : ℚ) c).drop 28 =
      u32le (qToUint32 ((r : ℚ) * (c : ℚ) * 2)) ++ (encodeWAV s (r : ℚ) c).drop 32 := rfl
  have d32 : (encodeWAV s (r : ℚ) c).drop 32 =
      u16le (c * 2) ++ (encodeWAV s (r : ℚ) c).drop 34 := rfl
  have d34 : (encodeWAV s (r : ℚ) c).drop 34 =
      u16le 16 ++ (encodeWAV s (r : ℚ) c).drop 36 := rfl
  have d40 : (encodeWAV s (r : ℚ) c).drop 40 =
      u32le (s.length * 2) ++ (encodeWAV s (r : ℚ) c).drop 44 := rfl
  have hq1 : qToUint32 ((r : Nat) : ℚ) = r := qToUint32_natCast r h3
  have hq2 : qToUint32 ((r : ℚ) * (c : ℚ) * 2) = r * c * 2 := by
    have hc : ((r : ℚ) * (c : ℚ) * 2) = ((r * c * 2 : Nat) : ℚ) := by
      push_cast
      ring
    rw [hc, qToUint32_natCast _ h4]
  refine ⟨rfl, ?_, rfl, rfl, ?_, ?_, ?_, ?_, ?_, ?_, ?_, rfl, ?_, ?_, rfl⟩
  · rw [d4, parseU32_u32le _ _ (by omega)]
    omega
  · rw [d16]
    exact parseU32_u32le _ _ (by omega)
  · rw [d20]
    exact parseU16_u16le _ _ (by omega)
  · rw [d22]
    exact parseU16_u16le _ _ h2
  · rw [d24, hq1]
    exact parseU32_u32le _ _ h3
  · rw [d28, hq2]
    exact parseU32_u32le _ _ h4
  · rw [d32]
    exact parseU16_u16le _ _ h5
  · rw [d34]
    exact parseU16_u16le _ _ (by omega)
  · rw [d40, parseU32_u32le _ _ (by omega)]
    omega
  · have hl : (encodeWAV s (r : ℚ) c).length = (floatTo16BitPCM s).length + 44 := rfl
    rw [hl, floatTo16BitPCM_length]
    omega

/-- Witness for C1 at a concrete input: one sample at 8000 Hz mono; the
re-parsed header fields give back the rate, the channel count and the data
byte length. -/
theorem wr_c1_witness :
    parseU32 ((encodeWAV [some (1/2)] ((8000 : Nat) : ℚ) 1).drop 24) = 8000
    ∧ parseU16 ((encodeWAV [some (1/2)] ((8000 : Nat) : ℚ) 1).drop 22) = 1
    ∧ parseU32 ((encodeWAV [some (1/2)] ((8000 : Nat) : ℚ) 1).drop 40) = 2 := by
  obtain ⟨-, -, -, -, -, -, h22, h24, -, -, -, -, h40, -, -⟩ :=
    wr_c1_wav_header [some (1/2)] 8000 1 (by decide) (by decide) (by decide)
      (by decide) (by decide)
  exact ⟨h24, h22, h40⟩

/-- C2: the 16-bit PCM conversion used by encodeWAV first clamps each
float sample to [-1, 1] and then scales a negative clamped value by 32768
and a non-negative one by 32767, truncating to a signed 16-bit
little-endian integer; the two data bytes of every encoded sample position
are exactly this conversion of that sample. -/
theorem wr_c2_pcm_scaling :
    (∀ x : ℚ, pcm16 (some x) = pcm16Spec x)
    ∧ ∀ (s : List JVal) (r : ℚ) (c : Nat) (i : Nat) (q : ℚ),
        s[i]? = some (some q) →
        ((encodeWAV s r c).drop (44 + 2 * i)).take 2 = i16le (pcm16Spec q) := by
  refine ⟨pcm16_eq_spec, ?_⟩
  intro s r c i q h
  have h1 : 44 + 2 * i = 2 * i + 44 := by omega
  have h2 : (encodeWAV s r c).drop (2 * i + 44) =
      ((encodeWAV s r c).drop 44).drop (2 * i) := by
    rw [List.drop_drop]
    rw [Nat.add_comm]
  rw [h1, h2, encodeWAV_drop44, floatTo16BitPCM_drop s i (some q) h,
    takeChunk 2 (by simp [i16le, u16le]), pcm16_eq_spec]

/-- Witness for C2 at a concrete input: the first sample 1/2 of an encoded
buffer is stored as its clamped and 32767-scaled 16-bit value. -/
theorem wr_c2_witness :
    ((encodeWAV [some (1/2)] ((8000 : Nat) : ℚ) 1).drop (44 + 2 * 0)).take 2 =
      i16le (pcm16Spec (1/2)) :=
  wr_c2_pcm_scaling.2 [some (1/2)] ((8000 : Nat) : ℚ) 1 0 (1/2) rfl

theorem interleave_length (L R : List JVal) :
    (interleave L R).length = L.length + R.length := by
  simp [interleave]

theorem interleave_getElem? (L R : List JVal) (j : Nat) :
    (interleave L R)[j]? =
      if j < L.length + R.length then
        some (if j % 2 = 0 then jget L (j / 2) else jget R (j / 2))
      else none := by
  rcases lt_or_ge j (L.length + R.length) with h | h
  · rw [if_pos h]
    simp [interleave, List.getElem?_map, List.getElem?_range h]
  · rw [if_neg (not_lt.2 h)]
    apply List.getElem?_eq_none
    simpa [interleave_length] using h

/-- C9: interleaving two equal-length channels yields a sequence of double
length whose element at every even index 2i is the left channel sample at
i and at every odd index 2i+1 the right channel sample at i. -/
theorem wr_c9_interleave_even_odd (L R : List JVal) (h : L.length = R.length) :
    (interleave L R).length = 2 * L.length
    ∧ ∀ i, i < L.length →
        (interleave L R)[2 * i]? = L[i]? ∧ (interleave L R)[2 * i + 1]? = R[i]? := by
  constructor
  · rw [interleave_length, ← h]
    omega
  · intro i hi
    have hiR : i < R.length := h ▸ hi
    constructor
    · rw [interleave_getElem?, if_pos (by omega), if_pos (by omega)]
      have he : 2 * i / 2 = i := by omega
      rw [he, jget, List.getElem?_eq_getElem hi]
      simp
    · rw [interleave_getElem?, if_pos (by omega), if_neg (by omega)]
      have he : (2 * i + 1) / 2 = i := by omega
      rw [he, jget, List.getElem?_eq_getElem hiR]
      simp

/-- Witness for C9 at a concrete input: two two-sample channels. -/
theorem wr_c9_witness :
    (interleave [some 1, some 2] [some 3, some 4]).length =
      2 * [some (1 : ℚ), some 2].length
    ∧ (interleave [some 1, some 2] [some 3, some 4])[2 * 1]? =
        [some (1 : ℚ), some 2][1]? := by
  obtain ⟨hl, hg⟩ :=
    wr_c9_interleave_even_odd [some 1, some 2] [some 3, some 4] rfl
  exact ⟨hl, (hg 1 (by decide)).1⟩

/-- C4 counterexample: interleave on channels of unequal length (here one
sample against none) does not fail with a LengthMismatch error: the source
has no length check and no throw, and returns a value. -/
theorem wr_c4_counterexample : interleave [some 1] [] = [some 1] := by decide

/-- C4 amended: interleave never fails, also on unequal-length channels:
it returns a sequence of length inputL.length + inputR.length in which
every even position 2i holds the (possibly out-of-range, hence NaN) read
of the left channel at i and every odd position 2i+1 the read of the right
channel at i. -/
theorem wr_c4_no_failure (L R : List JVal) (_h : L.length ≠ R.length) :
    (interleave L R).length = L.length + R.length
    ∧ (∀ i, 2 * i < L.length + R.length →
        (interleave L R)[2 * i]? = some (jget L i))
    ∧ ∀ i, 2 * i + 1 < L.length + R.length →
        (interleave L R)[2 * i + 1]? = some (jget R i) := by
  refine ⟨interleave_length L R, ?_, ?_⟩
  · intro i hi
    rw [interleave_getElem?, if_pos hi, if_pos (by omega)]
    have he : 2 * i / 2 = i := by omega
    rw [he]
  · intro i hi
    rw [interleave_getElem?, if_pos hi, if_neg (by omega)]
    have he : (2 * i + 1) / 2 = i := by omega
    rw [he]

/-- Witness for C4 at a concrete input: the mismatched pair of one sample
against none yields a length-1 result. -/
theorem wr_c4_witness :
    (interleave [some 1] ([] : List JVal)).length =
      [some (1 : ℚ)].length + ([] : List JVal).length :=
  (wr_c4_no_failure [some 1] [] (by decide)).1

theorem oap_idle (s : RecorderState) (now vol : ℚ) (h : s.recording = false) :
    Recorder.onAudioProcess s now vol = (s, false) := by
  simp [Recorder.onAudioProcess, h]

theorem oap_loud (s : RecorderState) (now vol : ℚ) (hrec : s.recording = true)
    (h : s.options.volumeThreshold ≤ vol) :
    Recorder.onAudioProcess s now vol =
      ({ s with maxVolume := vol, quietTime := now }, false) := by
  simp [Recorder.onAudioProcess, Recorder.isQuiet, Recorder.stop, hrec,
    not_lt.2 h]

theorem oap_quiet_nofire (s : RecorderState) (now vol : ℚ)
    (hrec : s.recording = true) (hv : vol < s.options.volumeThreshold)
    (hd : ¬ now - s.quietTime > s.options.quietThresholdTime) :
    Recorder.onAudioProcess s now vol = ({ s with maxVolume := vol }, false) := by
  simp [Recorder.onAudioProcess, Recorder.isQuiet, Recorder.stop, hrec, hv, hd]

theorem oap_quiet_fire (s : RecorderState) (now vol : ℚ)
    (hrec : s.recording = true) (hv : vol < s.options.volumeThreshold)
    (hd : now - s.quietTime > s.options.quietThresholdTime) :
    Recorder.onAudioProcess s now vol =
      ({ s with maxVolume := vol, recording := false }, true) := by
  simp [Recorder.onAudioProcess, Recorder.isQuiet, Recorder.stop, hrec, hv, hd]

theorem runObs_idle (s : RecorderState) (obs : List (ℚ × ℚ))
    (h : s.recording = false) : Recorder.runObs s obs = (s, 0) := by
  induction obs with
  | nil => rfl
  | cons ob rest ih =>
    simp [Recorder.runObs, oap_idle s ob.1 ob.2 h, ih]

theorem runObs_once (s : RecorderState) (obs : List (ℚ × ℚ))
    (hrec : s.recording = true)
    (hall : ∀ p ∈ obs, p.2 < s.options.volumeThreshold)
    (hex : ∃ p ∈ obs, p.1 - s.quietTime > s.options.quietThresholdTime) :
    (Recorder.runObs s obs).2 = 1 := by
  induction obs generalizing s with
  | nil => simp at hex
  | cons ob rest ih =>
    have hv : ob.2 < s.options.volumeThreshold := hall ob (by simp)
    by_cases hd : ob.1 - s.quietTime > s.options.quietThresholdTime
    · have hstep := oap_quiet_fire s ob.1 ob.2 hrec hv hd
      have hrest :=
        runObs_idle { s with maxVolume := ob.2, recording := false } rest rfl
      simp [Recorder.runObs, hstep, hrest]
    · have hstep := oap_quiet_nofire s ob.1 ob.2 hrec hv hd
      have hall' : ∀ p ∈ rest, p.2 < s.options.volumeThreshold := by
        intro p hp
        exact hall p (List.mem_cons_of_mem _ hp)
      have hex' : ∃ p ∈ rest, p.1 - s.quietTime > s.options.quietThresholdTime := by
        rcases hex with ⟨p, hp, hgt⟩
        rcases List.mem_cons.1 hp with heq | hmem
        · subst heq
          exact absurd hgt hd
        · exact ⟨p, hmem, hgt⟩
      have hrest := ih { s with maxVolume := ob.2 } hrec hall' hex'
      simp [Recorder.runObs, hstep, hrest]

theorem runObs_suppressed (s : RecorderState) (obs : List (ℚ × ℚ)) (t : ℚ)
    (hq : t ≤ s.quietTime)
    (hall : ∀ p ∈ obs, t ≤ p.1 ∧ p.1 ≤ t + s.options.quietThresholdTime) :
    (Recorder.runObs s obs).2 = 0 := by
  induction obs generalizing s with
  | nil => rfl
  | cons ob rest ih =>
    rcases hall ob (by simp) with ⟨hob1, hob2⟩
    have hall' : ∀ p ∈ rest, t ≤ p.1 ∧ p.1 ≤ t + s.options.quietThresholdTime := by
      intro p hp
      exact hall p (List.mem_cons_of_mem _ hp)
    by_cases hr : s.recording = true
    · by_cases hv : ob.2 < s.options.volumeThreshold
      · have hd : ¬ ob.1 - s.quietTime > s.options.quietThresholdTime := by
          intro hgt
          linarith
        have hstep := oap_quiet_nofire s ob.1 ob.2 hr hv hd
        have hrest := ih { s with maxVolume := ob.2 } hq hall'
        simp [Recorder.runObs, hstep, hrest]
      · have hstep := oap_loud s ob.1 ob.2 hr (not_lt.1 hv)
        have hq' : t ≤ ({ s with maxVolume := ob.2, quietTime := ob.1 } :
            RecorderState).quietTime := by
          simpa using hob1
        have hrest := ih { s with maxVolume := ob.2, quietTime := ob.1 } hq' hall'
        simp [Recorder.runObs, hstep, hrest]
    · have hr' : s.recording = false := by
        revert hr
        cases s.recording <;> simp
      rw [runObs_idle s (ob :: rest) hr']

/-- C3: during a recording cycle, an observation at or above
volumeThreshold resets the quiet timestamp to the current time and never
fires the stop; the stop fires only when the level is strictly below the
threshold and the elapsed time since the quiet timestamp strictly exceeds
quietThresholdTime; a run of all-below-threshold observations containing
a time past the quiet budget fires the stop exactly once (recording stops,
so it is not re-armed within the cycle); and after one at-or-above
observation at time tl, no stop fires while the following observations
stay within tl + quietThresholdTime. -/
theorem wr_c3_silence_monitor (s : RecorderState) (hrec : s.recording = true) :
    (∀ now vol, s.options.volumeThreshold ≤ vol →
        (Recorder.onAudioProcess s now vol).1.quietTime = now
          ∧ (Recorder.onAudioProcess s now vol).2 = false)
    ∧ (∀ now vol, (Recorder.onAudioProcess s now vol).2 = true →
        vol < s.options.volumeThreshold
          ∧ now - s.quietTime > s.options.quietThresholdTime)
    ∧ (∀ obs : List (ℚ × ℚ),
        (∀ p ∈ obs, p.2 < s.options.volumeThreshold) →
        (∃ p ∈ obs, p.1 - s.quietTime > s.options.quietThresholdTime) →
        (Recorder.runObs s obs).2 = 1)
    ∧ ∀ (tl vl : ℚ) (rest : List (ℚ × ℚ)),
        s.options.volumeThreshold ≤ vl →
        (∀ p ∈ rest, tl ≤ p.1 ∧ p.1 ≤ tl + s.options.quietThresholdTime) →
        (Recorder.runObs s ((tl, vl) :: rest)).2 = 0 := by
  refine ⟨?_, ?_, ?_, ?_⟩
  · intro now vol h
    rw [oap_loud s now vol hrec h]
    exact ⟨rfl, rfl⟩
  · intro now vol hfire
    by_cases hv : vol < s.options.volumeThreshold
    · by_cases hd : now - s.quietTime > s.options.quietThresholdTime
      · exact ⟨hv, hd⟩
      · rw [oap_quiet_nofire s now vol hrec hv hd] at hfire
        simp at hfire
    · rw [oap_loud s now vol hrec (not_lt.1 hv)] at hfire
      simp at hfire
  · intro obs hall hex
    exact runObs_once s obs hrec hall hex
  · intro tl vl rest hv hall
    have hstep := oap_loud s tl vl hrec hv
    have hsup :=
      runObs_suppressed { s with maxVolume := vl, quietTime := tl } rest tl
        (le_refl tl) hall
    simp [Recorder.runObs, hstep, hsup]

/-- Witness for C3 at a concrete input: with the default thresholds
(5 seconds, -60 dB), two quiet observations at times 3 and 6 starting from
quiet timestamp 0 fire the stop exactly once. -/
theorem wr_c3_witness :
    (Recorder.runObs
        { recording := true, ready := true, quietTime := 0, maxVolume := 0,
          options :=
            { mono := true, quietThresholdTime := 5, volumeThreshold := -60,
              sampleRate := none } }
        [(3, -70), (6, -70)]).2 = 1 :=
  (wr_c3_silence_monitor
      { recording := true, ready := true, quietTime := 0, maxVolume := 0,
        options :=
          { mono := true, quietThresholdTime := 5, volumeThreshold := -60,
            sampleRate := none } }
      rfl).2.2.1 [(3, -70), (6, -70)] (by decide)
    ⟨(6, -70), by decide, by norm_num⟩

theorem nextOffset_eq_boundLo (ratio : ℚ) (k : Nat) :
    (jsRound (((k : ℚ) + 1) * ratio)).toNat = boundLo ratio (k + 1) := by
  rw [boundLo]
  have hcast : ((k + 1 : Nat) : ℚ) = (k : ℚ) + 1 := by push_cast; ring
  rw [hcast]

theorem boundLo_zero (ratio : ℚ) : boundLo ratio 0 = 0 := by
  have hz : ((0 : Nat) : ℚ) * ratio + 1 / 2 = 1 / 2 := by push_cast; ring
  rw [boundLo, jsRound, hz, ratFloor_eq]
  norm_num

theorem boundLo_lt_next (ratio : ℚ) (h : 1 ≤ ratio) (i : Nat) :
    boundLo ratio i + 1 ≤ boundLo ratio (i + 1) := by
  have hcast : ((i + 1 : Nat) : ℚ) = (i : ℚ) + 1 := by push_cast; ring
  have harg : (i : ℚ) * ratio + 1 / 2 + 1 ≤ ((i : ℚ) + 1) * ratio + 1 / 2 := by
    nlinarith [Nat.cast_nonneg (α := ℚ) i]
  have hmul : (0 : ℚ) ≤ (i : ℚ) * ratio :=
    mul_nonneg (Nat.cast_nonneg i) (by linarith)
  have hnn : (0 : ℚ) ≤ (i : ℚ) * ratio + 1 / 2 := by linarith
  have hfl : ⌊(i : ℚ) * ratio + 1 / 2⌋ + 1 ≤ ⌊((i : ℚ) + 1) * ratio + 1 / 2⌋ := by
    have h1 : ⌊(i : ℚ) * ratio + 1 / 2 + 1⌋ ≤ ⌊((i : ℚ) + 1) * ratio + 1 / 2⌋ :=
      Int.floor_mono harg
    rw [Int.floor_add_one] at h1
    exact h1
  have hnn2 : (0 : ℤ) ≤ ⌊(i : ℚ) * ratio + 1 / 2⌋ := Int.floor_nonneg.2 hnn
  simp only [boundLo, jsRound, ratFloor_eq, hcast]
  omega

theorem boundLo_lt_len (buffer : List JVal) (ratio : ℚ) (h : 1 < ratio) (i : Nat)
    (hi : i < dsNewLen buffer ratio) : boundLo ratio i < buffer.length := by
  have hr0 : (0 : ℚ) < ratio := by linarith
  simp only [dsNewLen, jsRound, ratFloor_eq] at hi
  have h1 : (i : ℤ) + 1 ≤ ⌊(buffer.length : ℚ) / ratio + 1 / 2⌋ := by omega
  have h2 : ((i : ℚ) + 1) ≤ (buffer.length : ℚ) / ratio + 1 / 2 := by
    have hle := Int.le_floor.1 h1
    push_cast at hle
    linarith
  have h3 : (i : ℚ) ≤ (buffer.length : ℚ) / ratio - 1 / 2 := by linarith
  have h4 : (i : ℚ) * ratio ≤ ((buffer.length : ℚ) / ratio - 1 / 2) * ratio :=
    mul_le_mul_of_nonneg_right h3 (le_of_lt hr0)
  have h5 : ((buffer.length : ℚ) / ratio - 1 / 2) * ratio =
      (buffer.length : ℚ) - ratio / 2 := by
    rw [sub_mul, div_mul_cancel₀ _ (ne_of_gt hr0)]
    ring
  have h6 : (i : ℚ) * ratio + 1 / 2 < (buffer.length : ℚ) := by
    rw [h5] at h4
    linarith
  have h7 : ⌊(i : ℚ) * ratio + 1 / 2⌋ < (buffer.length : ℤ) := by
    rw [Int.floor_lt]
    exact_mod_cast h6
  have h8 : (0 : ℤ) ≤ ⌊(i : ℚ) * ratio + 1 / 2⌋ := by
    apply Int.floor_nonneg.2
    have := mul_nonneg (Nat.cast_nonneg (α := ℚ) i) (le_of_lt hr0)
    linarith
  simp only [boundLo, jsRound, ratFloor_eq]
  omega

theorem countAt_pos (buffer : List JVal) (ratio : ℚ) (h : 1 < ratio) (i : Nat)
    (hi : i < dsNewLen buffer ratio) : countAt buffer ratio i ≠ 0 := by
  have h1 := boundLo_lt_next ratio (le_of_lt h) i
  have h2 := boundLo_lt_len buffer ratio h i hi
  rw [countAt]
  omega

theorem downsampleLoop_unfold (buffer : List JVal) (ratio : ℚ) (newLen k : Nat)
    (hk : k < newLen) :
    downsampleLoop buffer ratio newLen k (boundLo ratio k) =
      jdivNat
        (jsum ((List.range' (boundLo ratio k) (countAt buffer ratio k)).map
          (jget buffer)))
        (countAt buffer ratio k)
      :: downsampleLoop buffer ratio newLen (k + 1) (boundLo ratio (k + 1)) := by
  rw [downsampleLoop, if_pos hk]
  simp only [nextOffset_eq_boundLo, countAt]

theorem downsampleLoop_getElem (buffer : List JVal) (ratio : ℚ) (newLen : Nat) :
    ∀ d k, k + d < newLen →
      (downsampleLoop buffer ratio newLen k (boundLo ratio k))[d]? =
        some (jdivNat
          (jsum ((List.range' (boundLo ratio (k + d))
            (countAt buffer ratio (k + d))).map (jget buffer)))
          (countAt buffer ratio (k + d))) := by
  intro d
  induction d with
  | zero =>
    intro k hk
    rw [downsampleLoop_unfold buffer ratio newLen k (by omega)]
    simp
  | succ d ih =>
    intro k hk
    rw [downsampleLoop_unfold buffer ratio newLen k (by omega)]
    have harr : k + (d + 1) = k + 1 + d := by omega
    rw [harr]
    simp only [List.getElem?_cons_succ]
    exact ih (k + 1) (by omega)

theorem downsampleBuffer_ok (buffer : List JVal) (rate srate : ℚ)
    (h2 : rate < srate) :
    downsampleBuffer buffer rate srate =
      Except.ok (downsampleLoop buffer (srate / rate)
        (dsNewLen buffer (srate / rate)) 0 0) := by
  rw [downsampleBuffer, if_neg (ne_of_lt h2), if_neg (not_lt.2 (le_of_lt h2))]
  rfl

/-- C6: with 0 < target rate < source rate (the only way the loop is
reached), every output index of the downsample loop has a nonempty input
boundary range [boundLo i, min (boundLo (i+1)) inputLength), so the
division by the sample count never divides by zero, and the output at
index i is the average over exactly that range; hence the claim that an
output index with an empty boundary range carries sample 0.0 holds
vacuously — no such index exists. -/
theorem wr_c6_no_division_by_zero (buffer : List JVal) (rate srate : ℚ)
    (h1 : 0 < rate) (h2 : rate < srate) (i : Nat)
    (hi : i < dsNewLen buffer (srate / rate)) :
    countAt buffer (srate / rate) i ≠ 0
    ∧ downsampleBuffer buffer rate srate =
        Except.ok (downsampleLoop buffer (srate / rate)
          (dsNewLen buffer (srate / rate)) 0 0)
    ∧ (downsampleLoop buffer (srate / rate)
        (dsNewLen buffer (srate / rate)) 0 0)[i]? =
        some (jdivNat
          (jsum ((List.range' (boundLo (srate / rate) i)
            (countAt buffer (srate / rate) i)).map (jget buffer)))
          (countAt buffer (srate / rate) i))
    ∧ (countAt buffer (srate / rate) i = 0 →
        (downsampleLoop buffer (srate / rate)
          (dsNewLen buffer (srate / rate)) 0 0)[i]? = some (some 0)) := by
  have hr : 1 < srate / rate := (one_lt_div h1).2 h2
  have hc := countAt_pos buffer (srate / rate) hr i hi
  have hget := downsampleLoop_getElem buffer (srate / rate)
    (dsNewLen buffer (srate / rate)) i 0 (by omega)
  rw [boundLo_zero] at hget
  refine ⟨hc, downsampleBuffer_ok buffer rate srate h2, ?_,
    fun h => absurd h hc⟩
  simpa using hget

/-- Witness for C6 at a concrete input: downsampling two samples from rate
2 to rate 1 has a nonempty boundary range at its single output index. -/
theorem wr_c6_witness : countAt [some 1, some 2] ((2 : ℚ) / 1) 0 ≠ 0 :=
  (wr_c6_no_division_by_zero [some 1, some 2] 1 2 (by norm_num) (by norm_num) 0
    (by norm_num [dsNewLen, jsRound, ratFloor_eq])).1
